import Mathlib

/-!
Verification of the OMSC wiki scraper (src/index.ts).

The TypeScript source is shallowly embedded below.  JavaScript numbers are
modelled exactly: the numeric values that actually flow through the program
are integers (parseInt results, counters) and the one-decimal rounded
averages, so totals are `Int`/`Nat` and averages are `Rat`.  JS `Map`
iteration order is insertion order, so maps are modelled as association
lists in insertion order.  Fallible parses return `Option`.
-/

set_option maxRecDepth 4096
set_option linter.unusedSectionVars false

/-! ### JavaScript numeric-string parsing primitives -/

/-- Characters skipped by JS `parseInt` before reading the number
(the StrWhiteSpace characters that matter for ASCII-ish input). -/
def isJsWhitespace (c : Char) : Bool :=
  c = ' ' || c = '\t' || c = '\n' || c = '\r' || c.toNat = 11 || c.toNat = 12 || c.toNat = 160

/-- Longest digit prefix of a character list. -/
def takeDigits (cs : List Char) : List Char :=
  cs.takeWhile Char.isDigit

/-- Value of a list of decimal digit characters, most significant first. -/
def digitsToNat (ds : List Char) : Nat :=
  ds.foldl (fun acc c => acc * 10 + (c.toNat - 48)) 0

/-- Digit prefix of a character list as a number, `none` when it is empty
(the `NaN` outcome of `parseInt`). -/
def digitsPrefixNat (cs : List Char) : Option Nat :=
  let ds := takeDigits cs
  if ds.isEmpty then none else some (digitsToNat ds)

/-- JS `parseInt(s, 10)`: skip leading whitespace, read an optional sign and
then the longest digit prefix; `none` models `NaN`. -/
def jsParseInt (s : String) : Option Int :=
  let cs := s.data.dropWhile isJsWhitespace
  match cs with
  | [] => none
  | c :: rest =>
    if c = '-' then (digitsPrefixNat rest).map (fun n => -(n : Int))
    else if c = '+' then (digitsPrefixNat rest).map (fun n => (n : Int))
    else (digitsPrefixNat cs).map (fun n => (n : Int))

/-- First maximal digit run of a character list (the first match of the
regular expression /\d+/), `none` when there is no digit at all. -/
def firstDigitRun : List Char → Option (List Char)
  | [] => none
  | c :: cs => if c.isDigit then some (c :: takeDigits cs) else firstDigitRun cs

/-- src/index.ts `extractEditionNumber`: first embedded integer of an edition
label, via /\d+/ and `parseInt(match, 10)`. -/
def extractEditionNumber (edition : String) : Option Nat :=
  (firstDigitRun edition.data).map digitsToNat

/-! ### Table rows -/

/-- One row of a country history table (headings "Edition", "Points"; the
remaining columns are never read by the aggregation logic). -/
structure CountryRow where
  Edition : String := ""
  Points : String := ""
deriving DecidableEq, Repr

/-- One row of a member history table; `gfPlace`, `gfPoints` and `sfPoints`
stand for the "GF Place", "GF Points" and "SF Points" columns. -/
structure MemberRow where
  Edition : String := ""
  gfPlace : String := ""
  gfPoints : String := ""
  sfPoints : String := ""
deriving DecidableEq, Repr

/-! ### Country-track row filter and aggregation (processResults) -/

/-- The country-track row filter of `processResults`:
`editionNumber !== null && editionNumber <= (argv.edition ?? Infinity) &&
!column.Points.match(/[^0-9.]/g) && parseInt(column.Points)`.
`ceiling = none` models an absent `--edition` flag (`Infinity`). -/
def countryRowIncluded (ceiling : Option Nat) (column : CountryRow) : Bool :=
  match extractEditionNumber column.Edition with
  | none => false
  | some editionNumber =>
    (match ceiling with
     | none => true
     | some c => decide (editionNumber ≤ c)) &&
    !(column.Points.data.any fun ch => !(ch.isDigit || decide (ch = '.'))) &&
    (match jsParseInt column.Points with
     | none => false
     | some v => decide (v ≠ 0))

/-- Rows of one country table surviving the filter. -/
def countryFiltered (ceiling : Option Nat) (rows : List CountryRow) : List CountryRow :=
  rows.filter (countryRowIncluded ceiling)

/-- `totalPoints` accumulation of `processResults` over the filtered rows. -/
def countryTotalPoints (ceiling : Option Nat) (rows : List CountryRow) : Int :=
  (countryFiltered ceiling rows).foldl (fun tp column => tp + (jsParseInt column.Points).getD 0) 0

/-! ### Rounding -/

/-- JS `Math.round`: floor of x + 1/2 (round half toward positive infinity). -/
def jsMathRound (x : ℚ) : ℤ :=
  Int.floor (x + 1/2)

/-- `Math.round((totalPoints / count) * 10) / 10` of `processResults`. -/
def averagePoints (totalPoints : Int) (count : Nat) : ℚ :=
  ((jsMathRound ((totalPoints : ℚ) / (count : ℚ) * 10) : ℤ) : ℚ) / 10

/-- `averagePoints` as computed by `processResults` for one country table. -/
def countryAveragePoints (ceiling : Option Nat) (rows : List CountryRow) : ℚ :=
  averagePoints (countryTotalPoints ceiling rows) (countryFiltered ceiling rows).length

/-- Round half away from zero, the rounding mode named by the spec. -/
def roundHalfAwayFromZero (x : ℚ) : ℤ :=
  if 0 ≤ x then Int.floor (x + 1/2) else Int.ceil (x - 1/2)

/-! ### Leaderboard formatter (formatMessage)

The formatter walks the map in insertion order.  A `CountriesMapValue` is
`[points]` and a `MembersMapValue` is `[points, flagName]`, so an entry is a
name, a score, and an optional flag key.  Scores are kept generic in the
score type: the program instantiates it with integer totals and with
one-decimal rational averages.  `getFlag` reads external data (an override
file and the country-emoji library), so it is a parameter `gf`. -/

/-- One map entry handed to `formatMessage`. -/
structure Entry (α : Type) where
  name : String
  score : α
  flagName : Option String := none
deriving DecidableEq, Repr

/-- The data produced for one entity by one loop iteration of
`formatMessage`: the state read during the iteration (`rank`, `tieCount`
entering the step), the computed `pointsEqual`/`isPodium` flags, the rank
label emitted before the name, and the full output line. -/
structure Row where
  rank : Nat
  pointsEqual : Bool
  isPodium : Bool
  tieCount : Nat
  rankLabel : String
  line : String
deriving DecidableEq, Repr

variable {α : Type} [DecidableEq α] [Zero α] [ToString α]

/-- One iteration of the `map.forEach` body of `formatMessage`:
`nextPoints` is the following entity's score (the look-ahead), `rank`,
`previousPoints` and `tieCount` the state carried into the iteration. -/
def mkRow (gf : String → String) (isMembersArray : Bool) (e : Entry α)
    (nextPoints : Option α) (rank : Nat) (previousPoints : α) (tieCount : Nat) : Row :=
  let emoji := gf (if isMembersArray then e.flagName.getD "" else e.name)
  let points := e.score
  let pointsEqual : Bool := decide (nextPoints = some points) || decide (previousPoints = points)
  let isPodium : Bool := decide (rank ≤ 3) && !pointsEqual
  let rankLabel : String :=
    if rank = 1 ∧ pointsEqual = false then "🥇 "
    else if rank = 2 ∧ pointsEqual = false then "🥈 "
    else if rank = 3 ∧ pointsEqual = false then "🥉 "
    else if 3 < rank ∨ pointsEqual = true then
      (if pointsEqual = true then toString (rank - tieCount) ++ "\\" else toString rank) ++ ". "
    else ""
  { rank := rank, pointsEqual := pointsEqual, isPodium := isPodium, tieCount := tieCount,
    rankLabel := rankLabel,
    line := rankLabel
      ++ (if pointsEqual = true then "(=) " else "")
      ++ (if isPodium = true then "**" else "")
      ++ emoji ++ " " ++ e.name ++ " "
      ++ "- " ++ toString points ++ " "
      ++ (if isMembersArray = false then "points" else "")
      ++ (if isPodium = true then "**" else "")
      ++ "\n" }

/-- The `map.forEach` loop of `formatMessage`.  The state updates after each
iteration are exactly those of the source:
`tieCount += pointsEqual ? 1 : 0; tieCount = next-tie ? tieCount : 0;
previousPoints = points; rank++`. -/
def formatRowsGo (gf : String → String) (isMembersArray : Bool) :
    List (Entry α) → Nat → α → Nat → List Row
  | [], _, _, _ => []
  | e :: rest, rank, previousPoints, tieCount =>
    let nextPoints : Option α := rest.head?.map Entry.score
    let row := mkRow gf isMembersArray e nextPoints rank previousPoints tieCount
    let tieCount1 := tieCount + (if row.pointsEqual = true then 1 else 0)
    let tieCount2 := if nextPoints = some e.score then tieCount1 else 0
    row :: formatRowsGo gf isMembersArray rest (rank + 1) e.score tieCount2

/-- All iterations of `formatMessage`, from the initial state
`rank = 1, previousPoints = 0, tieCount = 0`. -/
def formatRows (gf : String → String) (isMembersArray : Bool) (map : List (Entry α)) : List Row :=
  formatRowsGo gf isMembersArray map 1 0 0

/-- src/index.ts `formatMessage`: the concatenation of the per-entity lines. -/
def formatMessage (gf : String → String) (map : List (Entry α))
    (isMembersArray : Bool := false) : String :=
  (formatRows gf isMembersArray map).foldl (fun acc row => acc ++ row.line) ""

/-- The flag lookup used for concrete inputs whose names have no flag: the
override table and library both miss, so `getFlag` yields the placeholder. -/
def gfq : String → String := fun _ => "❓"

/-- Default row used to read a list element at a known-good index. -/
def dfltRow : Row :=
  { rank := 0, pointsEqual := false, isPodium := false, tieCount := 0, rankLabel := "", line := "" }

example : formatMessage gfq [⟨"A", (100 : Int), none⟩, ⟨"B", 100, none⟩, ⟨"C", 80, none⟩] =
    "1\\. (=) ❓ A - 100 points\n1\\. (=) ❓ B - 100 points\n🥉 **❓ C - 80 points**\n" := by decide

/-! ### Index-level characterization of the formatter state -/

/-- `previousPoints` entering iteration `i` of the loop, starting from
`prev`: the score of the preceding entry once there is one. -/
def prevEntering (prev : α) : List (Entry α) → Nat → α
  | _, 0 => prev
  | [], _ + 1 => prev
  | e :: rest, i + 1 => prevEntering e.score rest i

/-- `tieCount` entering iteration `i` of the loop, starting from `tc`;
the per-step update is the one of `formatRowsGo`. -/
def tieEntering : α → Nat → List (Entry α) → Nat → Nat
  | _, tc, _, 0 => tc
  | _, tc, [], _ + 1 => tc
  | prev, tc, e :: rest, i + 1 =>
    let nextPoints : Option α := rest.head?.map Entry.score
    let pointsEqual : Bool := decide (nextPoints = some e.score) || decide (prev = e.score)
    let tieCount1 := tc + (if pointsEqual = true then 1 else 0)
    let tieCount2 := if nextPoints = some e.score then tieCount1 else 0
    tieEntering e.score tieCount2 rest i

/-- Length of the maximal run of equal values ending at index `i`:
the number of indices `j < i` with `l[j] = l[j+1] = ... = l[i]`. -/
def runLen (l : List α) : Nat → Nat
  | 0 => 0
  | i + 1 =>
    match l[i]?, l[i + 1]? with
    | some a, some b => if a = b then runLen l i + 1 else 0
    | _, _ => 0

/-- Index at which the tie-block containing index `i` starts. -/
def blockStart (l : List α) (i : Nat) : Nat :=
  i - runLen l i

theorem runLen_le (l : List α) : ∀ i, runLen l i ≤ i
  | 0 => Nat.le_refl 0
  | i + 1 => by
    unfold runLen
    cases hg : l[i]? with
    | none => simp
    | some a =>
      cases hh : l[i + 1]? with
      | none => simp
      | some b =>
        by_cases hab : a = b
        · simpa [hab] using Nat.succ_le_succ (runLen_le l i)
        · simp [hab]

theorem runLen_cons (a : α) (l : List α) :
    ∀ i, i ≤ l.length →
      runLen (a :: l) (i + 1) =
        runLen l i + (if runLen l i = i ∧ l[0]? = some a then 1 else 0)
  | 0, _ => by
    unfold runLen
    rw [List.getElem?_cons_succ, List.getElem?_cons_zero]
    cases hh : l[0]? with
    | none => simp
    | some b =>
      by_cases hab : a = b
      · simp [hab, runLen]
      · have hba : ¬b = a := fun hba => hab hba.symm
        simp [hab, hba]
  | i + 1, h => by
    have hi : i ≤ l.length := Nat.le_of_succ_le h
    have hilt : i < l.length := h
    have ih := runLen_cons a l i hi
    have hg : l[i]? = some l[i] := List.getElem?_eq_getElem hilt
    show (match (a :: l)[i + 1]?, (a :: l)[i + 2]? with
      | some x, some y => if x = y then runLen (a :: l) (i + 1) + 1 else 0
      | _, _ => 0) = _
    rw [List.getElem?_cons_succ, List.getElem?_cons_succ, hg]
    cases hh : l[i + 1]? with
    | none =>
      have hr1 : runLen l (i + 1) = 0 := by unfold runLen; rw [hg, hh]
      have hz : ¬(runLen l (i + 1) = i + 1 ∧ l[0]? = some a) := by rw [hr1]; omega
      simp [hr1, hz]
    | some y =>
      have hr1 : runLen l (i + 1) = if l[i] = y then runLen l i + 1 else 0 := by
        have hu : runLen l (i + 1) = (match l[i]?, l[i + 1]? with
          | some a, some b => if a = b then runLen l i + 1 else 0
          | _, _ => 0) := rfl
        rw [hu, hg, hh]
      by_cases hxy : l[i] = y
      · rw [show (match some l[i], some y with
          | some x, some y => if x = y then runLen (a :: l) (i + 1) + 1 else 0
          | _, _ => 0) = if l[i] = y then runLen (a :: l) (i + 1) + 1 else 0 from rfl]
        rw [if_pos hxy, ih, hr1, if_pos hxy]
        by_cases hb : runLen l i = i ∧ l[0]? = some a
        · have hb2 : runLen l i + 1 = i + 1 ∧ l[0]? = some a := ⟨by omega, hb.2⟩
          simp [hb, hb2]
        · have hb2 : ¬(runLen l i + 1 = i + 1 ∧ l[0]? = some a) := by
            intro hc
            exact hb ⟨by omega, hc.2⟩
          simp [hb, hb2]
      · rw [show (match some l[i], some y with
          | some x, some y => if x = y then runLen (a :: l) (i + 1) + 1 else 0
          | _, _ => 0) = if l[i] = y then runLen (a :: l) (i + 1) + 1 else 0 from rfl]
        rw [if_neg hxy, hr1, if_neg hxy]
        have hz : ¬((0 : Nat) = i + 1 ∧ l[0]? = some a) := by omega
        simp [hz]

/-- Row `i` of the formatter output, for any starting state: entry `i` is
rendered with the look-ahead score `map[i+1]`, rank `rank + i`, and the
previous-score / tie-count state reached after `i` iterations. -/
theorem formatRowsGo_getElem (gf : String → String) (m : Bool) :
    ∀ (es : List (Entry α)) (rank : Nat) (prev : α) (tc i : Nat),
      (formatRowsGo gf m es rank prev tc)[i]? =
        (es[i]?).map (fun e =>
          mkRow gf m e ((es[i + 1]?).map Entry.score) (rank + i)
            (prevEntering prev es i) (tieEntering prev tc es i))
  | [], rank, prev, tc, i => by simp [formatRowsGo]
  | e :: rest, rank, prev, tc, 0 => by
    simp only [formatRowsGo, List.getElem?_cons_zero, List.getElem?_cons_succ,
      prevEntering, tieEntering, Nat.add_zero]
    rw [show rest[0]? = rest.head? from (List.head?_eq_getElem? rest).symm]
    rfl
  | e :: rest, rank, prev, tc, i + 1 => by
    have ih := formatRowsGo_getElem gf m rest (rank + 1) e.score
      (if rest.head?.map Entry.score = some e.score then
        tc + (if (decide (rest.head?.map Entry.score = some e.score) ||
                  decide (prev = e.score)) = true then 1 else 0)
       else 0) i
    simp only [formatRowsGo, List.getElem?_cons_succ]
    rw [show (mkRow gf m e (rest.head?.map Entry.score) rank prev tc).pointsEqual =
      (decide (rest.head?.map Entry.score = some e.score) || decide (prev = e.score)) from rfl]
    rw [ih]
    have harith : rank + 1 + i = rank + (i + 1) := by omega
    rw [harith]
    rfl

theorem prevEntering_getElem :
    ∀ (es : List (Entry α)) (prev : α) (j : Nat) (e : Entry α),
      es[j]? = some e → prevEntering prev es (j + 1) = e.score
  | [], _, j, e => by simp
  | x :: rest, prev, 0, e => by
    intro hj
    simp only [List.getElem?_cons_zero, Option.some_inj] at hj
    subst hj
    simp [prevEntering]
  | x :: rest, prev, j + 1, e => by
    intro hj
    rw [List.getElem?_cons_succ] at hj
    show prevEntering x.score rest (j + 1) = e.score
    exact prevEntering_getElem rest x.score j e hj

/-- From any start, `tieCount` entering step `i` is the current run length,
plus the starting count when the run reaches all the way back to the start. -/
theorem tieEntering_runLen :
    ∀ (es : List (Entry α)) (prev : α) (tc i : Nat), i ≤ es.length →
      tieEntering prev tc es i =
        runLen (es.map Entry.score) i +
          (if runLen (es.map Entry.score) i = i then tc else 0)
  | _, _, tc, 0, _ => by simp [tieEntering, runLen]
  | [], _, tc, i + 1, h => by simp at h
  | e :: rest, prev, tc, i + 1, h => by
    have hi : i ≤ rest.length := by simpa using Nat.le_of_succ_le_succ h
    have hmap : i ≤ (rest.map Entry.score).length := by simpa using hi
    have hcons : runLen (e.score :: rest.map Entry.score) (i + 1) =
        runLen (rest.map Entry.score) i +
          (if runLen (rest.map Entry.score) i = i ∧
              (rest.map Entry.score)[0]? = some e.score then 1 else 0) :=
      runLen_cons e.score (rest.map Entry.score) i hmap
    have hhead : rest.head?.map Entry.score = (rest.map Entry.score)[0]? := by
      cases rest <;> simp
    have hrle := runLen_le (rest.map Entry.score) i
    show tieEntering e.score
        (if rest.head?.map Entry.score = some e.score then
          tc + (if (decide (rest.head?.map Entry.score = some e.score) ||
                    decide (prev = e.score)) = true then 1 else 0)
         else 0) rest i = _
    rw [tieEntering_runLen rest e.score _ i hi]
    rw [show (e :: rest).map Entry.score = e.score :: rest.map Entry.score from rfl, hcons]
    simp only [hhead]
    by_cases hconn : (rest.map Entry.score)[0]? = some e.score
    · by_cases hfull : runLen (rest.map Entry.score) i = i
      · simp only [hconn, hfull]
        simp
        omega
      · have hne : ¬(runLen (rest.map Entry.score) i = i + 1) := by omega
        simp [hconn, hfull, hne]
    · have hconn2 : ¬∃ a, rest[0]? = some a ∧ a.score = e.score := by
        simpa using hconn
      have hne : ¬(runLen (rest.map Entry.score) i = i + 1) := by omega
      simp [hconn2, hne]

theorem formatRowsGo_length (gf : String → String) (m : Bool) :
    ∀ (es : List (Entry α)) (rank : Nat) (prev : α) (tc : Nat),
      (formatRowsGo gf m es rank prev tc).length = es.length
  | [], _, _, _ => rfl
  | e :: rest, rank, prev, tc => by
    simp only [formatRowsGo, List.length_cons]
    rw [formatRowsGo_length gf m rest]

theorem formatRows_length (gf : String → String) (m : Bool) (es : List (Entry α)) :
    (formatRows gf m es).length = es.length :=
  formatRowsGo_length gf m es 1 0 0

/-- Row `i` of the full formatter run: rank `1 + i`, previous score as of
index `i`, and tie count equal to the current run length. -/
theorem formatRows_getElem (gf : String → String) (m : Bool) (es : List (Entry α)) (i : Nat) :
    (formatRows gf m es)[i]? =
      (es[i]?).map (fun e =>
        mkRow gf m e ((es[i + 1]?).map Entry.score) (1 + i)
          (prevEntering 0 es i) (runLen (es.map Entry.score) i)) := by
  rw [formatRows, formatRowsGo_getElem gf m es 1 0 0 i]
  cases hi : es[i]? with
  | none => rfl
  | some e =>
    have hlt : i < es.length := by
      by_contra hge
      rw [List.getElem?_eq_none (by omega)] at hi
      exact Option.noConfusion hi
    rw [tieEntering_runLen es 0 0 i (Nat.le_of_lt hlt)]
    simp

theorem prevEntering_prevScoreJs (es : List (Entry α)) (i : Nat) (h : i < es.length) :
    prevEntering 0 es i =
      (match i with
       | 0 => (0 : α)
       | j + 1 => ((es.map Entry.score)[j]?).getD 0) := by
  cases i with
  | zero => cases es <;> simp [prevEntering]
  | succ j =>
    have hj : j < es.length := by omega
    have hg : es[j]? = some es[j] := List.getElem?_eq_getElem hj
    rw [prevEntering_getElem es 0 j es[j] hg]
    simp [List.getElem?_map, hg]

/-! Facts distinguishing the three medal labels from numeric rank labels. -/

theorem toDigitsCore_length_ge (b : Nat) : ∀ (f n : Nat) (ds : List Char),
    ds.length ≤ (Nat.toDigitsCore b f n ds).length
  | 0, _, _ => Nat.le_refl _
  | f + 1, n, ds => by
    unfold Nat.toDigitsCore
    by_cases h : n / b = 0
    · simp [h]
    · have hrec := toDigitsCore_length_ge b f (n / b) (Nat.digitChar (n % b) :: ds)
      simp at hrec
      simp [h]
      omega

theorem repr_length_pos (n : Nat) : 1 ≤ (Nat.repr n).length := by
  show 1 ≤ (Nat.toDigits 10 n).asString.length
  unfold Nat.toDigits
  unfold Nat.toDigitsCore
  by_cases h : n / 10 = 0
  · simp [h, String.length, List.asString]
  · have hrec := toDigitsCore_length_ge 10 n (n / 10) [Nat.digitChar (n % 10)]
    simp [String.length, List.asString] at hrec
    simp [h, String.length, List.asString]
    omega

theorem tieLabel_ne_medal (n : Nat) (s : String) (hs : s.length = 2) :
    toString n ++ "\\" ++ ". " ≠ s := by
  intro he
  have hlen := congrArg String.length he
  rw [String.length_append, String.length_append, hs] at hlen
  have h1 : 1 ≤ (toString n).length := repr_length_pos n
  have h2 : ("\\" : String).length = 1 := by decide
  have h3 : (". " : String).length = 2 := by decide
  rw [h2, h3] at hlen
  omega

theorem plainLabel_ne_medal (n : Nat) (s : String) (hs : s.length = 2) :
    toString n ++ ". " ≠ s := by
  intro he
  have hlen := congrArg String.length he
  rw [String.length_append, hs] at hlen
  have h1 : 1 ≤ (toString n).length := repr_length_pos n
  have h3 : (". " : String).length = 2 := by decide
  rw [h3] at hlen
  omega

/-! Field lemmas for `mkRow`. -/

theorem mkRow_pointsEqual (gf : String → String) (m : Bool) (e : Entry α) (nx : Option α)
    (rank : Nat) (pv : α) (tc : Nat) :
    (mkRow gf m e nx rank pv tc).pointsEqual =
      (decide (nx = some e.score) || decide (pv = e.score)) := rfl

theorem mkRow_rank (gf : String → String) (m : Bool) (e : Entry α) (nx : Option α)
    (rank : Nat) (pv : α) (tc : Nat) :
    (mkRow gf m e nx rank pv tc).rank = rank := rfl

theorem mkRow_tieCount (gf : String → String) (m : Bool) (e : Entry α) (nx : Option α)
    (rank : Nat) (pv : α) (tc : Nat) :
    (mkRow gf m e nx rank pv tc).tieCount = tc := rfl

theorem mkRow_rankLabel_tie (gf : String → String) (m : Bool) (e : Entry α) (nx : Option α)
    (rank : Nat) (pv : α) (tc : Nat)
    (hpe : (mkRow gf m e nx rank pv tc).pointsEqual = true) :
    (mkRow gf m e nx rank pv tc).rankLabel = toString (rank - tc) ++ "\\" ++ ". " := by
  rw [mkRow_pointsEqual] at hpe
  simp [mkRow, hpe]

theorem mkRow_rankLabel_untied (gf : String → String) (m : Bool) (e : Entry α) (nx : Option α)
    (rank : Nat) (pv : α) (tc : Nat) (h1 : 1 ≤ rank)
    (hpe : (mkRow gf m e nx rank pv tc).pointsEqual = false) :
    (mkRow gf m e nx rank pv tc).rankLabel =
      (if rank = 1 then "🥇 "
       else if rank = 2 then "🥈 "
       else if rank = 3 then "🥉 "
       else toString rank ++ ". ") := by
  rw [mkRow_pointsEqual] at hpe
  by_cases hr1 : rank = 1
  · simp [mkRow, hpe, hr1]
  · by_cases hr2 : rank = 2
    · simp [mkRow, hpe, hr1, hr2]
    · by_cases hr3 : rank = 3
      · simp [mkRow, hpe, hr1, hr2, hr3]
      · have hgt : 3 < rank := by omega
        simp [mkRow, hpe, hr1, hr2, hr3, hgt]

/-! Run lemmas used by the tie-block claim. -/

theorem runLen_run_eq (l : List α) : ∀ i j, i - runLen l i ≤ j → j ≤ i → l[j]? = l[i]?
  | 0, j, _, hji => by
    have : j = 0 := by omega
    rw [this]
  | i + 1, j, hbs, hji => by
    have hrle := runLen_le l i
    by_cases hj : j = i + 1
    · rw [hj]
    · have hji2 : j ≤ i := by omega
      have hu : runLen l (i + 1) = (match l[i]?, l[i + 1]? with
        | some a, some b => if a = b then runLen l i + 1 else 0
        | _, _ => 0) := rfl
      cases hg : l[i]? with
      | none =>
        rw [hu, hg] at hbs
        simp at hbs
        omega
      | some a =>
        cases hh : l[i + 1]? with
        | none =>
          rw [hu, hg, hh] at hbs
          simp at hbs
          omega
        | some b =>
          have hbs2 : i + 1 - (if a = b then runLen l i + 1 else 0) ≤ j := by
            rw [hu, hg, hh] at hbs
            exact hbs
          by_cases hab : a = b
          · rw [if_pos hab] at hbs2
            have hrec := runLen_run_eq l i j (by omega) hji2
            rw [hrec, hg, hab]
          · rw [if_neg hab] at hbs2
            omega

theorem blockStart_boundary (l : List α) :
    ∀ i, i < l.length →
      blockStart l i = 0 ∨ l[blockStart l i - 1]? ≠ l[blockStart l i]?
  | 0, _ => Or.inl rfl
  | i + 1, h => by
    have hrle := runLen_le l i
    have hu : runLen l (i + 1) = (match l[i]?, l[i + 1]? with
      | some a, some b => if a = b then runLen l i + 1 else 0
      | _, _ => 0) := rfl
    have hg : l[i]? = some l[i] := List.getElem?_eq_getElem (by omega)
    cases hh : l[i + 1]? with
    | none =>
      exact absurd (List.getElem?_eq_getElem h) (by simp [hh])
    | some b =>
      have hr : runLen l (i + 1) = if l[i] = b then runLen l i + 1 else 0 := by
        rw [hu, hg, hh]
      by_cases hab : l[i] = b
      · have hbseq : blockStart l (i + 1) = blockStart l i := by
          unfold blockStart
          rw [hr, if_pos hab]
          omega
        rw [hbseq]
        exact blockStart_boundary l i (by omega)
      · have hbseq : blockStart l (i + 1) = i + 1 := by
          unfold blockStart
          rw [hr, if_neg hab]
          omega
        rw [hbseq]
        refine Or.inr ?_
        have : i + 1 - 1 = i := by omega
        rw [this, hg, hh]
        intro hc
        exact hab (Option.some_inj.mp hc)

/-! ### Spec-side tie predicates -/

/-- The previous-entity score as the loop sees it at position `i`:
the initial `previousPoints = 0` before the first entity. -/
def prevScoreJs (l : List α) : Nat → α
  | 0 => 0
  | j + 1 => (l[j]?).getD 0

/-- The code's `pointsEqual` rule at position `i` carrying score `v`,
including the initial previous score `0` for the first position. -/
def tiedByRule (l : List α) (i : Nat) (v : α) : Prop :=
  l[i + 1]? = some v ∨ prevScoreJs l i = v

/-- Tie to an actually existing neighbor: the successor or, when there is
one, the predecessor has the same score. -/
def tiedToNeighbor (l : List α) (i : Nat) (v : α) : Prop :=
  l[i + 1]? = some v ∨ (0 < i ∧ l[i - 1]? = some v)

instance (l : List α) (i : Nat) (v : α) : Decidable (tiedByRule l i v) := by
  unfold tiedByRule
  infer_instance

instance (l : List α) (i : Nat) (v : α) : Decidable (tiedToNeighbor l i v) := by
  unfold tiedToNeighbor
  infer_instance

/-! ### Claims about the formatter -/

/-- The {A:100, B:100, C:80} leaderboard, in that insertion order. -/
def c1map : List (Entry Int) :=
  [⟨"A", 100, none⟩, ⟨"B", 100, none⟩, ⟨"C", 80, none⟩]

/-- Row `i` of the formatted C1 scenario. -/
def c1row (i : Nat) : Row :=
  ((formatRows gfq false c1map)[i]?).getD dfltRow

/-- C1: for the input map {A:100, B:100, C:80} in that order the output has
exactly three lines; the line for A is tie-marked "(=)" with no medal, the
line for B is tie-marked and shows the tie label "1\." (rank 2 minus a
tie-streak of 1), and the line for C carries the bronze medal glyph (rank 3,
pointsEqual false since C ties neither neighbor). -/
theorem spec_c1 :
    formatMessage gfq c1map =
      "1\\. (=) ❓ A - 100 points\n1\\. (=) ❓ B - 100 points\n🥉 **❓ C - 80 points**\n" ∧
    (formatRows gfq false c1map).length = 3 ∧
    ((c1row 0).pointsEqual = true ∧ (c1row 0).rankLabel = "1\\. " ∧
      (c1row 0).rankLabel ≠ "🥇 " ∧ (c1row 0).rankLabel ≠ "🥈 " ∧ (c1row 0).rankLabel ≠ "🥉 " ∧
      (c1row 0).line = "1\\. (=) ❓ A - 100 points\n") ∧
    ((c1row 1).pointsEqual = true ∧ (c1row 1).rank = 2 ∧ (c1row 1).tieCount = 1 ∧
      (c1row 1).rank - (c1row 1).tieCount = 1 ∧ (c1row 1).rankLabel = "1\\. " ∧
      (c1row 1).line = "1\\. (=) ❓ B - 100 points\n") ∧
    ((c1row 2).rank = 3 ∧ (c1row 2).pointsEqual = false ∧ (c1row 2).rankLabel = "🥉 " ∧
      (c1row 2).line = "🥉 **❓ C - 80 points**\n") := by
  decide

/-- C3: the rank counter is `i + 1` at position `i` regardless of ties, and
every tie-labelled line displays `rank - tieCount`, which is one more than
the index at which the maximal run of equal consecutive scores containing
position `i` starts (all scores from the block start through `i` are equal,
and the block start is position 0 or is preceded by a different score). -/
theorem spec_c3 {α : Type} [DecidableEq α] [Zero α] [ToString α]
    (gf : String → String) (m : Bool) (es : List (Entry α)) :
    (formatRows gf m es).length = es.length ∧
    ∀ i r, (formatRows gf m es)[i]? = some r →
      r.rank = i + 1 ∧
      (r.pointsEqual = true →
        r.rank - r.tieCount = blockStart (es.map Entry.score) i + 1 ∧
        r.rankLabel = toString (blockStart (es.map Entry.score) i + 1) ++ "\\" ++ ". " ∧
        (∀ j, blockStart (es.map Entry.score) i ≤ j → j ≤ i →
          (es.map Entry.score)[j]? = (es.map Entry.score)[i]?) ∧
        (blockStart (es.map Entry.score) i = 0 ∨
          (es.map Entry.score)[blockStart (es.map Entry.score) i - 1]? ≠
            (es.map Entry.score)[blockStart (es.map Entry.score) i]?)) := by
  refine ⟨formatRows_length gf m es, ?_⟩
  intro i r hr
  have hm := formatRows_getElem gf m es i
  rw [hr] at hm
  cases hi : es[i]? with
  | none =>
    rw [hi] at hm
    exact absurd hm (by simp)
  | some e =>
    rw [hi] at hm
    have hre : r = mkRow gf m e ((es[i + 1]?).map Entry.score) (1 + i)
        (prevEntering 0 es i) (runLen (es.map Entry.score) i) := by
      simpa using hm
    have hlt : i < es.length := by
      by_contra hge
      rw [List.getElem?_eq_none (by omega)] at hi
      exact Option.noConfusion hi
    have hslen : i < (es.map Entry.score).length := by simpa using hlt
    have hrle := runLen_le (es.map Entry.score) i
    have hrank : r.rank = 1 + i := by rw [hre, mkRow_rank]
    refine ⟨by omega, ?_⟩
    intro hpe
    have htc : r.tieCount = runLen (es.map Entry.score) i := by rw [hre, mkRow_tieCount]
    have hbs : (1 + i) - runLen (es.map Entry.score) i =
        blockStart (es.map Entry.score) i + 1 := by
      unfold blockStart
      omega
    refine ⟨by rw [hrank, htc, hbs], ?_, ?_, ?_⟩
    · have hlab := mkRow_rankLabel_tie gf m e ((es[i + 1]?).map Entry.score) (1 + i)
        (prevEntering 0 es i) (runLen (es.map Entry.score) i) (by rw [← hre]; exact hpe)
      rw [hre, hlab, hbs]
    · intro j hj1 hj2
      exact runLen_run_eq (es.map Entry.score) i j hj1 hj2
    · exact blockStart_boundary (es.map Entry.score) i hslen

/-- Tied pair used to instantiate C3 concretely. -/
def c3map : List (Entry Int) :=
  [⟨"A", 7, none⟩, ⟨"B", 7, none⟩]

/-- Row 1 of the formatted C3 instance. -/
def c3row : Row :=
  ((formatRows gfq false c3map)[1]?).getD dfltRow

/-- Witness for C3: a concrete instantiation of the theorem at the second
entity of a tied pair. -/
theorem spec_c3_witness :
    c3row.rank = 1 + 1 ∧ c3row.pointsEqual = true ∧
    c3row.rank - c3row.tieCount = blockStart (c3map.map Entry.score) 1 + 1 := by
  have h := (spec_c3 gfq false c3map).2 1 c3row rfl
  exact ⟨h.1, by decide, (h.2 (by decide)).1⟩

/-- C2 (amended): an entity's rank label is a medal glyph iff its rank
`i + 1` is at most 3 and it is untied by the code's `pointsEqual` rule -
which compares against the successor score and against the previous score
as the loop tracks it, the first entity's previous score being the initial
0; and the medal is gold, silver or bronze exactly at ranks 1, 2, 3. -/
theorem spec_c2 {α : Type} [DecidableEq α] [Zero α] [ToString α]
    (gf : String → String) (m : Bool) (es : List (Entry α)) :
    (formatRows gf m es).length = es.length ∧
    ∀ i r v, (formatRows gf m es)[i]? = some r →
      (es.map Entry.score)[i]? = some v →
      ((r.rankLabel = "🥇 " ∨ r.rankLabel = "🥈 " ∨ r.rankLabel = "🥉 ") ↔
          (i + 1 ≤ 3 ∧ ¬tiedByRule (es.map Entry.score) i v)) ∧
      (r.rankLabel = "🥇 " ↔ (i + 1 = 1 ∧ ¬tiedByRule (es.map Entry.score) i v)) ∧
      (r.rankLabel = "🥈 " ↔ (i + 1 = 2 ∧ ¬tiedByRule (es.map Entry.score) i v)) ∧
      (r.rankLabel = "🥉 " ↔ (i + 1 = 3 ∧ ¬tiedByRule (es.map Entry.score) i v)) := by
  refine ⟨formatRows_length gf m es, ?_⟩
  intro i r v hr hv
  have hm := formatRows_getElem gf m es i
  rw [hr] at hm
  cases hi : es[i]? with
  | none =>
    rw [hi] at hm
    exact absurd hm (by simp)
  | some e =>
    rw [hi] at hm
    have hre : r = mkRow gf m e ((es[i + 1]?).map Entry.score) (1 + i)
        (prevEntering 0 es i) (runLen (es.map Entry.score) i) := by
      simpa using hm
    have hlt : i < es.length := by
      by_contra hge
      rw [List.getElem?_eq_none (by omega)] at hi
      exact Option.noConfusion hi
    have hv2 : v = e.score := by
      rw [List.getElem?_map, hi] at hv
      simpa using hv.symm
    subst hv2
    have hnx : (es.map Entry.score)[i + 1]? = (es[i + 1]?).map Entry.score := by
      simp [List.getElem?_map]
    have hpv : prevEntering 0 es i = prevScoreJs (es.map Entry.score) i := by
      rw [prevEntering_prevScoreJs es i hlt]
      cases i <;> simp [prevScoreJs]
    have hpeiff : r.pointsEqual = true ↔ tiedByRule (es.map Entry.score) i e.score := by
      rw [hre, mkRow_pointsEqual, hpv, show (Option.map Entry.score es[i + 1]?) =
        (es.map Entry.score)[i + 1]? from hnx.symm]
      simp [tiedByRule]
    by_cases hpeb : r.pointsEqual = true
    · have htied := hpeiff.mp hpeb
      have hlab : r.rankLabel =
          toString ((1 + i) - runLen (es.map Entry.score) i) ++ "\\" ++ ". " := by
        rw [hre]
        exact mkRow_rankLabel_tie _ _ _ _ _ _ _ (by rw [← hre]; exact hpeb)
      have hne1 : r.rankLabel ≠ "🥇 " := by rw [hlab]; exact tieLabel_ne_medal _ _ (by decide)
      have hne2 : r.rankLabel ≠ "🥈 " := by rw [hlab]; exact tieLabel_ne_medal _ _ (by decide)
      have hne3 : r.rankLabel ≠ "🥉 " := by rw [hlab]; exact tieLabel_ne_medal _ _ (by decide)
      refine ⟨iff_of_false ?_ ?_, iff_of_false hne1 ?_, iff_of_false hne2 ?_,
        iff_of_false hne3 ?_⟩
      · rintro (h | h | h)
        exacts [hne1 h, hne2 h, hne3 h]
      all_goals rintro ⟨-, hnt⟩; exact hnt htied
    · have hnt : ¬tiedByRule (es.map Entry.score) i e.score := fun ht => hpeb (hpeiff.mpr ht)
      have hpef : r.pointsEqual = false := by
        cases hb : r.pointsEqual
        · rfl
        · exact absurd hb hpeb
      have hlab := mkRow_rankLabel_untied gf m e ((es[i + 1]?).map Entry.score) (1 + i)
        (prevEntering 0 es i) (runLen (es.map Entry.score) i) (by omega)
        (by rw [← hre]; exact hpef)
      rw [← hre] at hlab
      rcases i with _ | _ | _ | j
      · have hlab0 : r.rankLabel = "🥇 " := by rw [hlab]; simp
        refine ⟨iff_of_true (Or.inl hlab0) ⟨by omega, hnt⟩, iff_of_true hlab0 ⟨rfl, hnt⟩,
          iff_of_false (by rw [hlab0]; decide) ?_, iff_of_false (by rw [hlab0]; decide) ?_⟩
        all_goals rintro ⟨h1, -⟩; omega
      · have hlab0 : r.rankLabel = "🥈 " := by rw [hlab]; simp
        refine ⟨iff_of_true (Or.inr (Or.inl hlab0)) ⟨by omega, hnt⟩,
          iff_of_false (by rw [hlab0]; decide) ?_, iff_of_true hlab0 ⟨rfl, hnt⟩,
          iff_of_false (by rw [hlab0]; decide) ?_⟩
        all_goals rintro ⟨h1, -⟩; omega
      · have hlab0 : r.rankLabel = "🥉 " := by rw [hlab]; simp
        refine ⟨iff_of_true (Or.inr (Or.inr hlab0)) ⟨by omega, hnt⟩,
          iff_of_false (by rw [hlab0]; decide) ?_, iff_of_false (by rw [hlab0]; decide) ?_,
          iff_of_true hlab0 ⟨rfl, hnt⟩⟩
        all_goals rintro ⟨h1, -⟩; omega
      · have hc1 : ¬(1 + (j + 3) = 1) := by omega
        have hc2 : ¬(1 + (j + 3) = 2) := by omega
        have hc3 : ¬(1 + (j + 3) = 3) := by omega
        have hlab4 : r.rankLabel = toString (1 + (j + 3)) ++ ". " := by
          rw [hlab]
          simp [hc1, hc2, hc3]
        have hne1 : r.rankLabel ≠ "🥇 " := by rw [hlab4]; exact plainLabel_ne_medal _ _ (by decide)
        have hne2 : r.rankLabel ≠ "🥈 " := by rw [hlab4]; exact plainLabel_ne_medal _ _ (by decide)
        have hne3 : r.rankLabel ≠ "🥉 " := by rw [hlab4]; exact plainLabel_ne_medal _ _ (by decide)
        refine ⟨iff_of_false ?_ ?_, iff_of_false hne1 ?_, iff_of_false hne2 ?_,
          iff_of_false hne3 ?_⟩
        · rintro (h | h | h)
          exacts [hne1 h, hne2 h, hne3 h]
        all_goals rintro ⟨h1, -⟩; omega

/-- Untied descending triple used to instantiate C2 concretely. -/
def c2map : List (Entry Int) :=
  [⟨"X", 9, none⟩, ⟨"Y", 4, none⟩, ⟨"Z", 1, none⟩]

/-- Row 0 of the formatted C2 instance. -/
def c2row : Row :=
  ((formatRows gfq false c2map)[0]?).getD dfltRow

/-- Witness for C2: the theorem applied to a concrete untied triple, whose
first row carries gold. -/
theorem spec_c2_witness :
    (c2map.map Entry.score)[0]? = some 9 ∧
    (c2row.rankLabel = "🥇 " ↔ (0 + 1 = 1 ∧ ¬tiedByRule (c2map.map Entry.score) 0 9)) := by
  exact ⟨by decide, ((spec_c2 gfq false c2map).2 0 c2row 9 (by decide) (by decide)).2.1⟩

/-- Map with a first entity of score 0 and an untied successor. -/
def c2cexMap : List (Entry Int) :=
  [⟨"A", 0, none⟩, ⟨"B", 5, none⟩]

/-- Row 0 of the formatted C2 counterexample map. -/
def c2cexRow : Row :=
  ((formatRows gfq false c2cexMap)[0]?).getD dfltRow

/-- Counterexample to C2 as stated: in the map {A:0, B:5} entity A has rank
1 and ties neither of its actual neighbors, yet it receives no medal glyph
(its label is the tie label "1\."), because the initial `previousPoints = 0`
makes `pointsEqual` true - so "medal iff rank at most 3 and not tied to
either neighbor" fails. -/
theorem spec_c2_counterexample :
    (c2cexMap.map Entry.score)[0]? = some 0 ∧
    ¬((c2cexRow.rankLabel = "🥇 " ∨ c2cexRow.rankLabel = "🥈 " ∨ c2cexRow.rankLabel = "🥉 ") ↔
        (0 + 1 ≤ 3 ∧ ¬tiedToNeighbor (c2cexMap.map Entry.score) 0 0)) := by
  decide

/-- C4 (amended): a single-entity map yields rank 1 with no tie marker and
no tie label provided the entity's score is nonzero (the gold-medal label is
emitted and `pointsEqual` is false, so no "(=)" and no tie label appear);
with score 0 the initial `previousPoints = 0` marks the entity as tied. -/
theorem spec_c4 {α : Type} [DecidableEq α] [Zero α] [ToString α]
    (gf : String → String) (m : Bool) (e : Entry α) (h : e.score ≠ 0) :
    (formatRows gf m [e]).length = 1 ∧
    ∀ r, (formatRows gf m [e])[0]? = some r →
      r.rank = 1 ∧ r.pointsEqual = false ∧ r.isPodium = true ∧ r.rankLabel = "🥇 " := by
  have hpe0 : (decide ((0 : α) = e.score)) = false :=
    decide_eq_false (fun hh => h hh.symm)
  refine ⟨rfl, ?_⟩
  intro r hr
  have hre : r = mkRow gf m e none 1 0 0 := by
    simpa [formatRows, formatRowsGo] using hr.symm
  have hpe : r.pointsEqual = false := by
    rw [hre, mkRow_pointsEqual]
    simp [hpe0]
  refine ⟨by rw [hre, mkRow_rank], hpe, ?_, ?_⟩
  · rw [hre]
    show (decide ((1 : Nat) ≤ 3) &&
      !(decide ((none : Option α) = some e.score) || decide ((0 : α) = e.score))) = true
    simp [hpe0]
  · have hlab := mkRow_rankLabel_untied gf m e none 1 0 0 (by omega) (by rw [← hre]; exact hpe)
    rw [hre, hlab]
    simp

/-- Witness for C4: a concrete single entity with nonzero score gets gold
and is not tied. -/
theorem spec_c4_witness :
    ((42 : Int) ≠ 0) ∧
    (((formatRows gfq false [⟨"Solo", (42 : Int), none⟩])[0]?).getD dfltRow).rank = 1 ∧
    (((formatRows gfq false [⟨"Solo", (42 : Int), none⟩])[0]?).getD dfltRow).pointsEqual = false ∧
    (((formatRows gfq false [⟨"Solo", (42 : Int), none⟩])[0]?).getD dfltRow).rankLabel = "🥇 " := by
  have h := (spec_c4 gfq false ⟨"Solo", (42 : Int), none⟩ (by decide)).2
    (((formatRows gfq false [⟨"Solo", (42 : Int), none⟩])[0]?).getD dfltRow) (by decide)
  exact ⟨by decide, h.1, h.2.1, h.2.2.2⟩

/-- Row 0 of the formatter on the single-entity map with score 0. -/
def c4cexRow : Row :=
  ((formatRows gfq false [⟨"A", (0 : Int), none⟩])[0]?).getD dfltRow

/-- Counterexample to C4 as stated: for the single-entity map {A:0} the
formatter marks the entity as tied (tie marker "(=) " and tie label "1\."),
because `previousPoints` is initialized to 0 - the claim's "regardless of
the entity's score value" fails at score 0. -/
theorem spec_c4_counterexample :
    c4cexRow.rank = 1 ∧ c4cexRow.pointsEqual = true ∧ c4cexRow.rankLabel = "1\\. " ∧
    c4cexRow.line = "1\\. (=) ❓ A - 0 points\n" := by
  decide

/-! ### Member-track aggregation (processResults) -/

/-- The member-track row filter of `processResults`:
edition parsed and at most the ceiling, and at least one of "GF Points" /
"SF Points" truthy (a non-empty string). -/
def memberRowIncluded (ceiling : Option Nat) (column : MemberRow) : Bool :=
  match extractEditionNumber column.Edition with
  | none => false
  | some editionNumber =>
    (match ceiling with
     | none => true
     | some c => decide (editionNumber ≤ c)) &&
    (decide (column.gfPoints ≠ "") || decide (column.sfPoints ≠ ""))

/-- One step of the `totalPlace`/`count` accumulation: a truthy
`parseInt(column["GF Place"])` adds to the total and bumps the count. -/
def memberPlaceStep (acc : Int × Nat) (column : MemberRow) : Int × Nat :=
  match jsParseInt column.gfPlace with
  | none => acc
  | some place => if place ≠ 0 then (acc.1 + place, acc.2 + 1) else acc

/-- `(totalPlace, count)` of `processResults` for one member table. -/
def memberTotalPlaceCount (ceiling : Option Nat) (rows : List MemberRow) : Int × Nat :=
  (rows.filter (memberRowIncluded ceiling)).foldl memberPlaceStep (0, 0)

/-! ### Participation reporter (processLastParticipation) -/

/-- The `argv.edition ?? 0` start followed by the max-inference loop of
`processLastParticipation` (run when `!argv.edition`, i.e. when the flag is
absent - or 0, which is falsy). -/
def inferredEdition (tables : List (List CountryRow)) : Nat :=
  tables.foldl
    (fun edition array =>
      array.foldl
        (fun edition column =>
          match extractEditionNumber column.Edition with
          | none => edition
          | some editionNumber =>
            if editionNumber ≠ 0 ∧ edition < editionNumber then editionNumber else edition)
        edition)
    0

/-- The reference edition used by the reporter: the flag when present and
truthy, otherwise the maximum edition number found in the data. -/
def referenceEdition (flag : Option Nat) (tables : List (List CountryRow)) : Nat :=
  match flag with
  | none => inferredEdition tables
  | some e => if e = 0 then inferredEdition tables else e

/-- `countries[index]?.[0] ?? "Unknown"`: the roster name owning table
`index` (tables and roster entries are parallel by position; the source
recovers the position with `tablesCountries.indexOf(array)`, which is
reference identity and hence the table's own position). -/
def ownerName (countries : List (String × String)) (idx : Nat) : String :=
  ((countries[idx]?).map Prod.fst).getD "Unknown"

/-- The nested table/row loop computing `lastEdition` for `country`,
starting at table index `idx` with accumulator `acc`. -/
def lastEditionGo (countries : List (String × String)) (country : String) (edition : Nat) :
    List (List CountryRow) → Nat → Nat → Nat
  | [], _, acc => acc
  | array :: rest, idx, acc =>
    lastEditionGo countries country edition rest (idx + 1)
      (array.foldl
        (fun lastEdition column =>
          match extractEditionNumber column.Edition with
          | none => lastEdition
          | some editionNumber =>
            if editionNumber ≠ 0 ∧ editionNumber ≤ edition ∧
                ownerName countries idx = country ∧ lastEdition < editionNumber then
              editionNumber
            else lastEdition)
        acc)

/-- `lastEdition` computed by `processLastParticipation` for one country. -/
def lastEditionFor (countries : List (String × String)) (tables : List (List CountryRow))
    (edition : Nat) (country : String) : Nat :=
  lastEditionGo countries country edition tables 0 0

/-- JS `Map.prototype.set` on an insertion-ordered association list:
overwrite in place when the key exists, append otherwise. -/
def jsMapSet {β : Type} (m : List (String × β)) (k : String) (v : β) : List (String × β) :=
  if m.any (fun p => p.1 = k) then
    m.map (fun p => if p.1 = k then (k, v) else p)
  else m ++ [(k, v)]

/-- JS `Map.prototype.get` on the association-list model. -/
def jsMapGet {β : Type} : List (String × β) → String → Option β
  | [], _ => none
  | p :: m, k => if p.1 = k then some p.2 else jsMapGet m k

/-- The `lastParticipation` map built by `processLastParticipation`. -/
def lastParticipationMap (countries : List (String × String))
    (tables : List (List CountryRow)) (flag : Option Nat) : List (String × Nat) :=
  countries.foldl
    (fun m c => jsMapSet m c.1 (lastEditionFor countries tables (referenceEdition flag tables) c.1))
    []

/-- Spec-side list of the eligible edition numbers of `country`: the parsed
edition numbers, at most the reference edition, of the rows in the tables
owned by `country`, scanning from table index `idx`. -/
def eligibleEditionsGo (countries : List (String × String)) (country : String) (edition : Nat) :
    List (List CountryRow) → Nat → List Nat
  | [], _ => []
  | array :: rest, idx =>
    (if ownerName countries idx = country then
      array.filterMap (fun column =>
        match extractEditionNumber column.Edition with
        | none => none
        | some editionNumber =>
          if editionNumber ≤ edition then some editionNumber else none)
     else []) ++ eligibleEditionsGo countries country edition rest (idx + 1)

/-- Spec-side: every parsed edition number of every row. -/
def parsedEditions (tables : List (List CountryRow)) : List Nat :=
  (tables.map (fun array =>
    array.filterMap (fun column => extractEditionNumber column.Edition))).flatten

/-! ### Roster sort comparator (extractData) -/

/-- A combining diacritical mark of the Unicode range U+0300 - U+036F,
the character class of the regex in the roster sort. -/
def hasCombiningMark (s : String) : Bool :=
  s.data.any fun c => decide (0x300 ≤ c.toNat) && decide (c.toNat ≤ 0x36F)

/-- The roster sort comparator of `extractData`, over (name, flagKey)
pairs.  `toLower` models `String.prototype.toLowerCase` and `nfd` models
`String.prototype.normalize("NFD")`, both locale/Unicode tables external to
the program; the string order models the code-unit comparison `aName >
bName`, which agrees with codepoint order on basic-plane names. -/
def rosterCompare (toLower nfd : String → String) (a b : String × String) : Int :=
  let aName := toLower a.1
  let bName := toLower b.1
  if hasCombiningMark (nfd aName) || hasCombiningMark (nfd bName) then 0
  else if aName > bName then 1 else if aName < bName then -1 else 0

/-- The case-insensitive lexicographic comparison named by the spec. -/
def caseInsensitiveLex (toLower : String → String) (a b : String × String) : Int :=
  if toLower a.1 = toLower b.1 then 0 else if toLower a.1 < toLower b.1 then -1 else 1

/-! ### Max-fold helpers -/

theorem foldl_step_max {β : Type} (g : Nat → β → Nat) (f : β → Nat)
    (hg : ∀ a x, g a x = Nat.max a (f x)) :
    ∀ (l : List β) (a : Nat), l.foldl g a = Nat.max a ((l.map f).foldr Nat.max 0)
  | [], a => by simp
  | x :: l, a => by
    rw [List.foldl_cons, foldl_step_max g f hg l (g a x), hg, List.map_cons, List.foldr_cons]
    exact Nat.max_assoc a (f x) _

theorem foldr_max_append (l1 l2 : List Nat) :
    (l1 ++ l2).foldr Nat.max 0 = Nat.max (l1.foldr Nat.max 0) (l2.foldr Nat.max 0) := by
  induction l1 with
  | nil => simp
  | cons x l ih => simp [ih, Nat.max_assoc]

theorem foldr_max_filterMap {β : Type} (f : β → Option Nat) :
    ∀ l : List β, ((l.filterMap f).foldr Nat.max 0) =
      ((l.map (fun x => (f x).getD 0)).foldr Nat.max 0)
  | [] => rfl
  | x :: l => by
    cases hf : f x with
    | none => simp [List.filterMap_cons, hf, foldr_max_filterMap f l]
    | some n => simp [List.filterMap_cons, hf, foldr_max_filterMap f l]

theorem editionStep_max (edition : Nat) (column : CountryRow) :
    (match extractEditionNumber column.Edition with
     | none => edition
     | some editionNumber =>
       if editionNumber ≠ 0 ∧ edition < editionNumber then editionNumber else edition) =
    Nat.max edition ((extractEditionNumber column.Edition).getD 0) := by
  cases h : extractEditionNumber column.Edition with
  | none => simp
  | some n =>
    simp only [Option.getD_some]
    by_cases hlt : edition < n
    · have h0 : n ≠ 0 := by omega
      rw [if_pos ⟨h0, hlt⟩]
      exact (Nat.max_eq_right (Nat.le_of_lt hlt)).symm
    · rw [if_neg (fun hc => hlt hc.2)]
      exact (Nat.max_eq_left (by omega)).symm

theorem editionFold_max :
    ∀ (tables : List (List CountryRow)) (ed0 : Nat),
      tables.foldl
        (fun edition array =>
          array.foldl
            (fun edition column =>
              match extractEditionNumber column.Edition with
              | none => edition
              | some editionNumber =>
                if editionNumber ≠ 0 ∧ edition < editionNumber then editionNumber else edition)
            edition)
        ed0 =
      Nat.max ed0 ((parsedEditions tables).foldr Nat.max 0)
  | [], ed0 => by simp [parsedEditions]
  | array :: rest, ed0 => by
    rw [List.foldl_cons, editionFold_max rest _]
    rw [foldl_step_max _ (fun column => (extractEditionNumber column.Edition).getD 0)
      (fun a x => editionStep_max a x) array ed0]
    rw [show parsedEditions (array :: rest) =
      (array.filterMap fun column => extractEditionNumber column.Edition) ++ parsedEditions rest
      from by simp [parsedEditions]]
    rw [foldr_max_append, foldr_max_filterMap]
    exact Nat.max_assoc ed0 _ _

theorem inferredEdition_eq (tables : List (List CountryRow)) :
    inferredEdition tables = (parsedEditions tables).foldr Nat.max 0 := by
  rw [inferredEdition, editionFold_max tables 0]
  exact Nat.zero_max _

theorem foldl_step_id {β : Type} (g : Nat → β → Nat) (hg : ∀ a x, g a x = a) :
    ∀ (l : List β) (a : Nat), l.foldl g a = a
  | [], _ => rfl
  | x :: l, a => by rw [List.foldl_cons, hg, foldl_step_id g hg l a]

theorem lastEditionTable_max (countries : List (String × String)) (country : String)
    (edition : Nat) (idx : Nat) (array : List CountryRow) (acc : Nat) :
    array.foldl
      (fun lastEdition column =>
        match extractEditionNumber column.Edition with
        | none => lastEdition
        | some editionNumber =>
          if editionNumber ≠ 0 ∧ editionNumber ≤ edition ∧
              ownerName countries idx = country ∧ lastEdition < editionNumber then
            editionNumber
          else lastEdition)
      acc =
    Nat.max acc
      ((if ownerName countries idx = country then
          array.filterMap (fun column =>
            match extractEditionNumber column.Edition with
            | none => none
            | some editionNumber =>
              if editionNumber ≤ edition then some editionNumber else none)
        else []).foldr Nat.max 0) := by
  by_cases ho : ownerName countries idx = country
  · rw [if_pos ho]
    rw [foldl_step_max _
      (fun column =>
        (match extractEditionNumber column.Edition with
         | none => none
         | some editionNumber =>
           if editionNumber ≤ edition then some editionNumber else none : Option Nat).getD 0)
      ?_ array acc]
    · rw [foldr_max_filterMap]
    · intro a column
      cases h : extractEditionNumber column.Edition with
      | none => simp [h]
      | some n =>
        simp only [h]
        by_cases hle : n ≤ edition
        · rw [if_pos hle, Option.getD_some]
          by_cases hlt : a < n
          · have h0 : n ≠ 0 := by omega
            rw [if_pos ⟨h0, hle, ho, hlt⟩]
            exact (Nat.max_eq_right (Nat.le_of_lt hlt)).symm
          · rw [if_neg (fun hc => hlt hc.2.2.2)]
            exact (Nat.max_eq_left (by omega)).symm
        · rw [if_neg hle, if_neg (fun hc => hle hc.2.1), Option.getD_none]
          exact (Nat.max_zero a).symm
  · rw [if_neg ho]
    rw [foldl_step_id _ (fun a column => ?_) array acc]
    · exact (Nat.max_zero acc).symm
    · cases h : extractEditionNumber column.Edition with
      | none => simp
      | some n => exact if_neg (fun hc => ho hc.2.2.1)

theorem lastEditionGo_max (countries : List (String × String)) (country : String)
    (edition : Nat) :
    ∀ (tables : List (List CountryRow)) (idx acc : Nat),
      lastEditionGo countries country edition tables idx acc =
        Nat.max acc ((eligibleEditionsGo countries country edition tables idx).foldr Nat.max 0)
  | [], idx, acc => (Nat.max_zero acc).symm
  | array :: rest, idx, acc => by
    rw [lastEditionGo, lastEditionGo_max countries country edition rest (idx + 1) _,
      lastEditionTable_max countries country edition idx array acc,
      eligibleEditionsGo, foldr_max_append]
    exact Nat.max_assoc acc _ _

theorem lastEditionFor_eq (countries : List (String × String))
    (tables : List (List CountryRow)) (edition : Nat) (country : String) :
    lastEditionFor countries tables edition country =
      (eligibleEditionsGo countries country edition tables 0).foldr Nat.max 0 := by
  rw [lastEditionFor, lastEditionGo_max countries country edition tables 0 0]
  exact Nat.zero_max _

/-! ### JS map lemmas -/

theorem jsMapSet_values {β : Type} (f : String → β) (m : List (String × β)) (k : String)
    (hm : ∀ p ∈ m, p.2 = f p.1) :
    ∀ p ∈ jsMapSet m k (f k), p.2 = f p.1 := by
  intro p hp
  unfold jsMapSet at hp
  by_cases hk : m.any (fun p => p.1 = k)
  · rw [if_pos hk] at hp
    obtain ⟨q, hq, hpq⟩ := List.mem_map.mp hp
    by_cases hqk : q.1 = k
    · rw [if_pos hqk] at hpq
      rw [← hpq]
    · rw [if_neg hqk] at hpq
      rw [← hpq]
      exact hm q hq
  · rw [if_neg hk] at hp
    rcases List.mem_append.mp hp with hq | hq
    · exact hm p hq
    · rw [List.mem_singleton.mp hq]

theorem jsMapSet_hasKey_self {β : Type} (m : List (String × β)) (k : String) (v : β) :
    ∃ p ∈ jsMapSet m k v, p.1 = k := by
  unfold jsMapSet
  by_cases hk : m.any (fun p => p.1 = k)
  · rw [if_pos hk]
    obtain ⟨q, hq, hqk⟩ := List.any_eq_true.mp hk
    refine ⟨(k, v), List.mem_map.mpr ⟨q, hq, ?_⟩, rfl⟩
    rw [if_pos (by simpa using hqk)]
  · rw [if_neg hk]
    exact ⟨(k, v), List.mem_append.mpr (Or.inr (List.mem_singleton.mpr rfl)), rfl⟩

theorem jsMapSet_hasKey_mono {β : Type} (m : List (String × β)) (k c : String) (v : β)
    (h : ∃ p ∈ m, p.1 = c) : ∃ p ∈ jsMapSet m k v, p.1 = c := by
  obtain ⟨p, hp, hpc⟩ := h
  unfold jsMapSet
  by_cases hk : m.any (fun p => p.1 = k)
  · rw [if_pos hk]
    by_cases hpk : p.1 = k
    · refine ⟨(k, v), List.mem_map.mpr ⟨p, hp, by rw [if_pos hpk]⟩, ?_⟩
      rw [← hpk, hpc]
    · exact ⟨p, List.mem_map.mpr ⟨p, hp, by rw [if_neg hpk]⟩, hpc⟩
  · rw [if_neg hk]
    exact ⟨p, List.mem_append.mpr (Or.inl hp), hpc⟩

theorem jsMapGet_eq_of_inv {β : Type} (f : String → β) :
    ∀ (m : List (String × β)) (k : String), (∀ p ∈ m, p.2 = f p.1) →
      (∃ p ∈ m, p.1 = k) → jsMapGet m k = some (f k)
  | [], k => by simp
  | p :: m, k => by
    intro hinv hk
    by_cases hpk : p.1 = k
    · rw [jsMapGet, if_pos hpk, hinv p (List.mem_cons_self p m), hpk]
    · rw [jsMapGet, if_neg hpk]
      obtain ⟨q, hq, hqk⟩ := hk
      rcases List.mem_cons.mp hq with hq1 | hq2
      · exact absurd (hq1 ▸ hqk) hpk
      · exact jsMapGet_eq_of_inv f m k (fun r hr => hinv r (List.mem_cons_of_mem p hr))
          ⟨q, hq2, hqk⟩

theorem lastPartFold_values (f : String → Nat) :
    ∀ (cs : List (String × String)) (m : List (String × Nat)),
      (∀ p ∈ m, p.2 = f p.1) →
      ∀ p ∈ cs.foldl (fun m c => jsMapSet m c.1 (f c.1)) m, p.2 = f p.1
  | [], m, hm => hm
  | c :: cs, m, hm => by
    rw [List.foldl_cons]
    exact lastPartFold_values f cs (jsMapSet m c.1 (f c.1)) (jsMapSet_values f m c.1 hm)

theorem lastPartFold_hasKey (f : String → Nat) :
    ∀ (cs : List (String × String)) (m : List (String × Nat)) (k : String),
      ((∃ p ∈ m, p.1 = k) ∨ (∃ q ∈ cs, q.1 = k)) →
      ∃ p ∈ cs.foldl (fun m c => jsMapSet m c.1 (f c.1)) m, p.1 = k
  | [], m, k, h => by
    rcases h with h | h
    · exact h
    · obtain ⟨q, hq, -⟩ := h
      exact absurd hq (List.not_mem_nil q)
  | c :: cs, m, k, h => by
    rw [List.foldl_cons]
    refine lastPartFold_hasKey f cs (jsMapSet m c.1 (f c.1)) k ?_
    rcases h with h | h
    · exact Or.inl (jsMapSet_hasKey_mono m c.1 k (f c.1) h)
    · obtain ⟨q, hq, hqk⟩ := h
      rcases List.mem_cons.mp hq with hq1 | hq2
      · refine Or.inl ?_
        rw [← hqk, hq1]
        exact jsMapSet_hasKey_self m c.1 (f c.1)
      · exact Or.inr ⟨q, hq2, hqk⟩

/-- C7: every roster entity appears in the `lastParticipation` map, and its
value is the maximum (0 when there is none) of the edition numbers, at most
the reference edition, of that entity's history rows. -/
theorem spec_c7 (countries : List (String × String)) (tables : List (List CountryRow))
    (flag : Option Nat) (name flagKey : String) (h : (name, flagKey) ∈ countries) :
    jsMapGet (lastParticipationMap countries tables flag) name =
      some ((eligibleEditionsGo countries name (referenceEdition flag tables) tables 0).foldr
        Nat.max 0) := by
  rw [show ((eligibleEditionsGo countries name (referenceEdition flag tables) tables 0).foldr
      Nat.max 0) = lastEditionFor countries tables (referenceEdition flag tables) name from
    (lastEditionFor_eq countries tables (referenceEdition flag tables) name).symm]
  refine jsMapGet_eq_of_inv (lastEditionFor countries tables (referenceEdition flag tables))
    (lastParticipationMap countries tables flag) name ?_ ?_
  · exact lastPartFold_values _ countries [] (by simp)
  · exact lastPartFold_hasKey _ countries [] name (Or.inr ⟨(name, flagKey), h, rfl⟩)

/-- Roster for the C7 witness. -/
def c7countries : List (String × String) := [("France", "France")]

/-- Tables for the C7 witness. -/
def c7tables : List (List CountryRow) :=
  [[{ Edition := "Edition 2", Points := "12" }, { Edition := "Edition 5", Points := "4" }]]

/-- Witness for C7: the theorem applied to a one-country roster whose only
table has editions 2 and 5, with the reference edition inferred as 5. -/
theorem spec_c7_witness :
    (("France", "France") ∈ c7countries) ∧
    jsMapGet (lastParticipationMap c7countries c7tables none) "France" = some 5 := by
  refine ⟨by decide, ?_⟩
  rw [spec_c7 c7countries c7tables none "France" "France" (by decide)]
  decide

/-- C8: the edition parser maps "Edition 10" to 10, "Edition 7" to 7 and a
label with no digits to none; with the CLI flag absent the reference edition
is the maximum of all parsed edition numbers (0 when there are none), and it
is 10 for those three labels. -/
theorem spec_c8 :
    extractEditionNumber "Edition 10" = some 10 ∧
    extractEditionNumber "Edition 7" = some 7 ∧
    extractEditionNumber "bad label" = none ∧
    (∀ tables : List (List CountryRow),
      referenceEdition none tables = (parsedEditions tables).foldr Nat.max 0) ∧
    referenceEdition none
      [[{ Edition := "Edition 10" }, { Edition := "Edition 7" },
        { Edition := "bad label" }]] = 10 := by
  refine ⟨by decide, by decide, by decide, ?_, by decide⟩
  intro tables
  exact inferredEdition_eq tables

/-! ### C5: the country row filter -/

/-- The row filter in the words of the claim: the Points field is a pure
non-negative integer string (digits only, at least one) whose integer value
is nonzero.  Written to be compared against `countryRowIncluded`. -/
def pureIntegerFilter (ceiling : Option Nat) (column : CountryRow) : Bool :=
  match extractEditionNumber column.Edition with
  | none => false
  | some editionNumber =>
    (match ceiling with
     | none => true
     | some c => decide (editionNumber ≤ c)) &&
    (decide (column.Points ≠ "") && column.Points.data.all Char.isDigit) &&
    decide (digitsToNat column.Points.data ≠ 0)

/-- Counterexample to C5 as stated: the row with Points "1.5" passes the
code's filter (the regex allows '.' and `parseInt("1.5")` is 1, truthy),
but "1.5" is not a pure non-negative integer string. -/
theorem spec_c5_counterexample :
    countryRowIncluded none { Edition := "Edition 3", Points := "1.5" } = true ∧
    pureIntegerFilter none { Edition := "Edition 3", Points := "1.5" } = false := by
  decide

/-- C5 (amended): a country history row is included iff its edition number
parses, that number is at most the configured ceiling (unbounded when the
flag is absent), its Points field contains only digit or '.' characters,
and `parseInt` of the field yields a nonzero number. -/
theorem spec_c5 (ceiling : Option Nat) (column : CountryRow) :
    countryRowIncluded ceiling column = true ↔
      ∃ n, extractEditionNumber column.Edition = some n ∧
        (∀ c, ceiling = some c → n ≤ c) ∧
        (∀ ch ∈ column.Points.data, ch.isDigit ∨ ch = '.') ∧
        ∃ v, jsParseInt column.Points = some v ∧ v ≠ 0 := by
  have hchiff : (∀ x ∈ column.Points.data, x.isDigit = false → x = '.') ↔
      (∀ ch ∈ column.Points.data, ch.isDigit = true ∨ ch = '.') := by
    constructor
    · intro h ch hch
      by_cases hd : ch.isDigit = true
      · exact Or.inl hd
      · refine Or.inr (h ch hch ?_)
        revert hd
        cases ch.isDigit <;> simp
    · intro h ch hch hnd
      rcases h ch hch with hd | hd
      · rw [hd] at hnd
        exact absurd hnd (by simp)
      · exact hd
  unfold countryRowIncluded
  cases he : extractEditionNumber column.Edition with
  | none => simp
  | some n =>
    cases hp : jsParseInt column.Points with
    | none =>
      cases ceiling <;> simp [hp]
    | some v =>
      cases ceiling with
      | none => simp [hp, hchiff]
      | some c =>
        simp [hp, hchiff]
        tauto

/-! ### C6: the one-decimal average -/

theorem countryRowIncluded_chars (ceiling : Option Nat) (column : CountryRow)
    (h : countryRowIncluded ceiling column = true) :
    ∀ ch ∈ column.Points.data, ch.isDigit ∨ ch = '.' := by
  unfold countryRowIncluded at h
  cases he : extractEditionNumber column.Edition with
  | none => rw [he] at h; exact absurd h (by simp)
  | some n =>
    rw [he] at h
    simp only [Bool.and_eq_true] at h
    have h2 := h.1.2
    simp only [Bool.not_eq_true'] at h2
    intro ch hch
    by_cases hd : ch.isDigit = true
    · exact Or.inl hd
    · refine Or.inr ?_
      have hdf : ch.isDigit = false := by
        revert hd
        cases ch.isDigit <;> simp
      have h3 := List.any_eq_false.mp h2 ch hch
      simp [hdf] at h3
      exact h3

theorem jsParseInt_getD_nonneg (s : String)
    (hs : ∀ ch ∈ s.data, ch.isDigit ∨ ch = '.') : 0 ≤ (jsParseInt s).getD 0 := by
  cases hcs : s.data.dropWhile isJsWhitespace with
  | nil => simp [jsParseInt, hcs]
  | cons c rest =>
    have hc : c ∈ s.data := by
      have hsub : List.Sublist (s.data.dropWhile isJsWhitespace) s.data :=
        List.dropWhile_sublist _
      exact hsub.subset (hcs ▸ List.mem_cons_self c rest)
    have hcd := hs c hc
    have hcm : ¬(c = '-') := by
      intro hh
      subst hh
      rcases hcd with hd | hd
      · exact absurd hd (by decide)
      · exact absurd hd (by decide)
    have hcp : ¬(c = '+') := by
      intro hh
      subst hh
      rcases hcd with hd | hd
      · exact absurd hd (by decide)
      · exact absurd hd (by decide)
    cases hd : digitsPrefixNat (c :: rest) with
    | none =>
      have hg : jsParseInt s = none := by
        simp [jsParseInt, hcs, hcm, hcp, hd]
      rw [hg]
      simp
    | some m =>
      have hg : jsParseInt s = some ((m : Nat) : Int) := by
        simp [jsParseInt, hcs, hcm, hcp, hd]
      rw [hg, Option.getD_some]
      exact Int.natCast_nonneg m

theorem foldl_points_nonneg :
    ∀ (l : List CountryRow) (acc : Int), 0 ≤ acc →
      (∀ col ∈ l, 0 ≤ (jsParseInt col.Points).getD 0) →
      0 ≤ l.foldl (fun tp column => tp + (jsParseInt column.Points).getD 0) acc
  | [], acc, ha, _ => ha
  | col :: l, acc, ha, hl => by
    rw [List.foldl_cons]
    refine foldl_points_nonneg l _ ?_ (fun c hc => hl c (List.mem_cons_of_mem col hc))
    have := hl col (List.mem_cons_self col l)
    omega

theorem countryTotalPoints_nonneg (ceiling : Option Nat) (rows : List CountryRow) :
    0 ≤ countryTotalPoints ceiling rows := by
  unfold countryTotalPoints
  refine foldl_points_nonneg _ 0 (le_refl 0) ?_
  intro col hcol
  have hinc : countryRowIncluded ceiling col = true := by
    have := List.mem_filter.mp hcol
    exact this.2
  exact jsParseInt_getD_nonneg _ (countryRowIncluded_chars ceiling col hinc)

/-- C6: the stored average is round(total/count x 10)/10, and since the
total is a sum of non-negative parsed points the JS `Math.round` (half
toward positive infinity) agrees with rounding half away from zero on the
scaled value; for total 101 and count 3 the average is 33.7. -/
theorem spec_c6 (ceiling : Option Nat) (rows : List CountryRow) :
    countryAveragePoints ceiling rows =
      ((roundHalfAwayFromZero ((countryTotalPoints ceiling rows : ℚ) /
          ((countryFiltered ceiling rows).length : ℚ) * 10) : ℤ) : ℚ) / 10 ∧
    averagePoints 101 3 = 337 / 10 := by
  constructor
  · have hx : (0 : ℚ) ≤ (countryTotalPoints ceiling rows : ℚ) /
        ((countryFiltered ceiling rows).length : ℚ) * 10 := by
      apply mul_nonneg
      · apply div_nonneg
        · exact_mod_cast countryTotalPoints_nonneg ceiling rows
        · exact Nat.cast_nonneg _
      · norm_num
    unfold countryAveragePoints averagePoints roundHalfAwayFromZero jsMathRound
    rw [if_pos hx]
  · unfold averagePoints jsMathRound
    have h1 : ((101 : Int) : ℚ) / ((3 : Nat) : ℚ) * 10 + 1 / 2 = 2023 / 6 := by norm_num
    rw [h1]
    have h2 : (⌊(2023 / 6 : ℚ)⌋ : ℤ) = 337 := by
      rw [Int.floor_eq_iff]
      norm_num
    rw [h2]
    norm_num

/-! ### C9: the roster comparator -/

/-- C9: whenever either compared name (lowercased then NFD-normalized)
contains a combining diacritical mark in U+0300 - U+036F the comparator
returns 0, so a stable sort leaves such a pair in its original relative
order; otherwise it is the case-insensitive lexicographic comparison. -/
theorem spec_c9 (toLower nfd : String → String) (a b : String × String) :
    ((hasCombiningMark (nfd (toLower a.1)) = true ∨
        hasCombiningMark (nfd (toLower b.1)) = true) →
      rosterCompare toLower nfd a b = 0) ∧
    (hasCombiningMark (nfd (toLower a.1)) = false →
      hasCombiningMark (nfd (toLower b.1)) = false →
      rosterCompare toLower nfd a b = caseInsensitiveLex toLower a b) := by
  constructor
  · intro h
    unfold rosterCompare
    rcases h with h | h <;> simp [h]
  · intro ha hb
    unfold rosterCompare caseInsensitiveLex
    simp only [ha, hb, Bool.or_self, Bool.false_eq_true, if_false]
    rcases lt_trichotomy (toLower a.1) (toLower b.1) with hlt | heq | hgt
    · rw [if_neg (by exact fun hc => absurd hlt (lt_asymm hc)), if_pos hlt,
        if_neg (ne_of_lt hlt), if_pos hlt]
    · rw [heq]
      simp
    · rw [if_pos hgt, if_neg (ne_of_gt hgt),
        if_neg (by exact fun hc => absurd hgt (lt_asymm hc))]

/-- A name carrying the combining acute accent U+0301. -/
def accentedName : String := String.mk ['e', Char.ofNat 0x301]

/-- Witness for C9: a name with a combining mark makes the comparator
return 0 against any partner. -/
theorem spec_c9_witness :
    hasCombiningMark accentedName = true ∧
    rosterCompare (fun s => s) (fun s => s) (accentedName, "") ("b", "") = 0 :=
  ⟨by decide,
    (spec_c9 (fun s => s) (fun s => s) (accentedName, "") ("b", "")).1 (Or.inl (by decide))⟩

/-! ### C10: divisors at insertion time -/

theorem memberFold_count (l : List MemberRow) :
    ∀ acc : Int × Nat,
      acc.2 ≤ (l.foldl memberPlaceStep acc).2 ∧
      ((l.foldl memberPlaceStep acc).2 = acc.2 → (l.foldl memberPlaceStep acc).1 = acc.1) := by
  induction l with
  | nil => exact fun acc => ⟨le_refl _, fun _ => rfl⟩
  | cons col l ih =>
    intro acc
    rw [List.foldl_cons]
    have ihs := ih (memberPlaceStep acc col)
    have hst : memberPlaceStep acc col = acc ∨
        (memberPlaceStep acc col).2 = acc.2 + 1 := by
      unfold memberPlaceStep
      cases hp : jsParseInt col.gfPlace with
      | none => exact Or.inl rfl
      | some place =>
        by_cases hz : place = 0
        · subst hz
          simp
        · simp [hz]
    rcases hst with hst | hst
    · rw [hst]
      exact ih acc
    · refine ⟨?_, ?_⟩
      · have := ihs.1
        omega
      · intro heq
        have := ihs.1
        omega

/-- C10: a nonzero country total implies at least one filtered row (the
divisor of the country average), and a nonzero member total place implies a
count of at least 1 (the divisor of the member average) - so every average
stored in the output maps divides by at least 1. -/
theorem spec_c10 (ceiling : Option Nat) (crows : List CountryRow) (mrows : List MemberRow) :
    (countryTotalPoints ceiling crows ≠ 0 → 1 ≤ (countryFiltered ceiling crows).length) ∧
    ((memberTotalPlaceCount ceiling mrows).1 ≠ 0 →
      1 ≤ (memberTotalPlaceCount ceiling mrows).2) := by
  constructor
  · intro h
    cases hf : countryFiltered ceiling crows with
    | nil =>
      exfalso
      apply h
      unfold countryTotalPoints
      rw [hf]
      rfl
    | cons a l => simp
  · intro h
    unfold memberTotalPlaceCount at h ⊢
    have hm := memberFold_count (mrows.filter (memberRowIncluded ceiling)) (0, 0)
    by_contra hc
    have h2 : ((mrows.filter (memberRowIncluded ceiling)).foldl memberPlaceStep (0, 0)).2 = 0 :=
      by omega
    exact h (hm.2 h2)

/-- Witness rows for C10 (country side). -/
def c10crows : List CountryRow := [{ Edition := "Edition 1", Points := "5" }]

/-- Witness rows for C10 (member side). -/
def c10mrows : List MemberRow :=
  [{ Edition := "Edition 1", gfPlace := "3", gfPoints := "10", sfPoints := "" }]

/-- Witness for C10: concrete tables with nonzero totals and counts 1. -/
theorem spec_c10_witness :
    (countryTotalPoints none c10crows ≠ 0 ∧ 1 ≤ (countryFiltered none c10crows).length) ∧
    ((memberTotalPlaceCount none c10mrows).1 ≠ 0 ∧
      1 ≤ (memberTotalPlaceCount none c10mrows).2) :=
  ⟨⟨by decide, (spec_c10 none c10crows c10mrows).1 (by decide)⟩,
    ⟨by decide, (spec_c10 none c10crows c10mrows).2 (by decide)⟩⟩

example : extractEditionNumber "Edition 10" = some 10 := by decide
example : inferredEdition [[{ Edition := "Edition 10" }, { Edition := "Edition 7" },
  { Edition := "bad label" }]] = 10 := by decide
example : lastEditionFor [("France", "France")] [[{ Edition := "Edition 2", Points := "12" }]]
  2 "France" = 2 := by decide
example : jsMapGet (lastParticipationMap [("France", "France")]
  [[{ Edition := "Edition 2", Points := "12" }]] none) "France" = some 2 := by decide
example : countryRowIncluded none { Edition := "Edition 3", Points := "1.5" } = true := by decide
example : jsParseInt "1.5" = some 1 := by decide
example : jsParseInt "" = none := by decide
example : jsParseInt " -42x" = some (-42) := by decide
